import Mathlib

/-!
Shallow embedding of the Mapply coordinate & layout engine
(src/js/canvas.js, src/js/connections.js, src/js/layout.js).

Numbers are embedded as rationals: every arithmetic operation the engine
performs is addition, subtraction, multiplication, min/max, or division,
so the JS doubles are modelled exactly on the inputs considered here.
DOM reads (`getBoundingClientRect`, measured node boxes) are passed in as
explicit parameters.
-/

namespace Mapply

/-! ### canvas.js — viewport transform

Module state `{scale, offsetX, offsetY}` becomes an explicit `TState`
threaded through each mutator.  `rectLeft`/`rectTop` stand for the
container's `getBoundingClientRect()` origin read inside each function.
-/

def MIN_ZOOM : ℚ := 1/4

def MAX_ZOOM : ℚ := 2

def ZOOM_STEP : ℚ := 1/10

structure TState where
  scale : ℚ
  offsetX : ℚ
  offsetY : ℚ
  deriving DecidableEq

/-- canvas.js `screenToCanvas(screenX, screenY)`. -/
def screenToCanvas (rectLeft rectTop : ℚ) (t : TState) (screenX screenY : ℚ) : ℚ × ℚ :=
  ((screenX - rectLeft - t.offsetX) / t.scale,
   (screenY - rectTop - t.offsetY) / t.scale)

/-- canvas.js `canvasToScreen(canvasX, canvasY)`. -/
def canvasToScreen (rectLeft rectTop : ℚ) (t : TState) (canvasX canvasY : ℚ) : ℚ × ℚ :=
  (canvasX * t.scale + t.offsetX + rectLeft,
   canvasY * t.scale + t.offsetY + rectTop)

/-- canvas.js `zoomAt(clientX, clientY, delta)`. -/
def zoomAt (rectLeft rectTop : ℚ) (clientX clientY delta : ℚ) (t : TState) : TState :=
  let mouseX := clientX - rectLeft
  let mouseY := clientY - rectTop
  let oldScale := t.scale
  let newScale := max MIN_ZOOM (min MAX_ZOOM (t.scale + delta))
  let scaleFactor := newScale / oldScale
  { scale := newScale
    offsetX := mouseX - (mouseX - t.offsetX) * scaleFactor
    offsetY := mouseY - (mouseY - t.offsetY) * scaleFactor }

/-- canvas.js `pan(x, y)`; `panStartX`/`panStartY` are the values captured
by `startPan`. -/
def pan (panStartX panStartY x y : ℚ) (t : TState) : TState :=
  { t with offsetX := x - panStartX, offsetY := y - panStartY }

/-- canvas.js `setTransform(newScale, newOffsetX, newOffsetY)`.  Note: the
source stores all three values verbatim, with no clamping. -/
def setTransform (newScale newOffsetX newOffsetY : ℚ) (_t : TState) : TState :=
  { scale := newScale, offsetX := newOffsetX, offsetY := newOffsetY }

/-- canvas.js `resetZoom()`. -/
def resetZoom : TState :=
  { scale := 1, offsetX := 0, offsetY := 0 }

/-- One measured node box as read by `fitToView` (style.left, style.top,
offsetWidth, offsetHeight). -/
structure NodeBox where
  x : ℚ
  y : ℚ
  w : ℚ
  h : ℚ
  deriving DecidableEq

/-- canvas.js `fitToView()`.  The source folds min/max starting from
`±Infinity`; for the nonempty list reaching that code path this equals
folding from the first box, which is how it is written here (ℚ has no
infinities). -/
def fitToView (boxes : List NodeBox) (containerWidth containerHeight : ℚ) (_t : TState) :
    TState :=
  match boxes with
  | [] => resetZoom
  | b :: rest =>
    let minX := rest.foldl (fun acc nb => min acc nb.x) b.x
    let minY := rest.foldl (fun acc nb => min acc nb.y) b.y
    let maxX := rest.foldl (fun acc nb => max acc (nb.x + nb.w)) (b.x + b.w)
    let maxY := rest.foldl (fun acc nb => max acc (nb.y + nb.h)) (b.y + b.h)
    let padding : ℚ := 60
    let minX := minX - padding
    let minY := minY - padding
    let maxX := maxX + padding
    let maxY := maxY + padding
    let contentWidth := maxX - minX
    let contentHeight := maxY - minY
    let scaleX := containerWidth / contentWidth
    let scaleY := containerHeight / contentHeight
    let newScale := max MIN_ZOOM (min MAX_ZOOM (min scaleX scaleY))
    let centerX := (minX + maxX) / 2
    let centerY := (minY + maxY) / 2
    { scale := newScale
      offsetX := containerWidth / 2 - centerX * newScale
      offsetY := containerHeight / 2 - centerY * newScale }

/-- The transform mutators that are *not* `setTransform`, as one step
relation for iterating gesture sequences. -/
inductive TMutation where
  | zoom (rectLeft rectTop clientX clientY delta : ℚ)
  | panTo (panStartX panStartY x y : ℚ)
  | fit (boxes : List NodeBox) (containerWidth containerHeight : ℚ)
  | reset

def applyMutation (t : TState) : TMutation → TState
  | .zoom rectLeft rectTop clientX clientY delta => zoomAt rectLeft rectTop clientX clientY delta t
  | .panTo panStartX panStartY x y => pan panStartX panStartY x y t
  | .fit boxes containerWidth containerHeight => fitToView boxes containerWidth containerHeight t
  | .reset => resetZoom

/-! ### Theorems about the viewport transform -/

theorem min_le_max_zoom : MIN_ZOOM ≤ MAX_ZOOM := by norm_num [MIN_ZOOM, MAX_ZOOM]

theorem clamp_mem_zoom_range (q : ℚ) :
    MIN_ZOOM ≤ max MIN_ZOOM (min MAX_ZOOM q) ∧ max MIN_ZOOM (min MAX_ZOOM q) ≤ MAX_ZOOM :=
  ⟨le_max_left _ _, max_le min_le_max_zoom (min_le_left _ _)⟩

theorem scale_in_range_ne_zero {s : ℚ} (hlo : MIN_ZOOM ≤ s) : s ≠ 0 := by
  intro h
  rw [h] at hlo
  norm_num [MIN_ZOOM] at hlo

/-- C2: for every screen point and every transform state whose scale lies in
`[MIN_ZOOM, MAX_ZOOM]` (hence is nonzero), converting screen → canvas → screen
is the identity (exactly, hence within 1e-6), for any fixed container origin. -/
theorem screen_to_canvas_round_trip (rectLeft rectTop : ℚ) (t : TState) (sx sy : ℚ)
    (hlo : MIN_ZOOM ≤ t.scale) (_hhi : t.scale ≤ MAX_ZOOM) :
    canvasToScreen rectLeft rectTop t
      (screenToCanvas rectLeft rectTop t sx sy).1
      (screenToCanvas rectLeft rectTop t sx sy).2 = (sx, sy) := by
  have hs : t.scale ≠ 0 := scale_in_range_ne_zero hlo
  simp only [canvasToScreen, screenToCanvas, Prod.mk.injEq]
  constructor <;> (field_simp)

theorem screen_to_canvas_round_trip_witness :
    (MIN_ZOOM ≤ (TState.mk 1 20 30).scale ∧ (TState.mk 1 20 30).scale ≤ MAX_ZOOM) ∧
    canvasToScreen 4 5 (TState.mk 1 20 30)
      (screenToCanvas 4 5 (TState.mk 1 20 30) 6 7).1
      (screenToCanvas 4 5 (TState.mk 1 20 30) 6 7).2 = (6, 7) :=
  ⟨⟨by norm_num [MIN_ZOOM], by norm_num [MAX_ZOOM]⟩,
   screen_to_canvas_round_trip 4 5 (TState.mk 1 20 30) 6 7
     (by norm_num [MIN_ZOOM]) (by norm_num [MAX_ZOOM])⟩

/-- C4: after `zoomAt(p, delta)` the canvas-space point under the anchor
screen point `p` is unchanged, for any starting scale in
`[MIN_ZOOM, MAX_ZOOM]` and any `delta` (including when the new scale is
clamped at either bound). -/
theorem zoomAt_preserves_anchor_point (rectLeft rectTop clientX clientY delta : ℚ)
    (t : TState) (hlo : MIN_ZOOM ≤ t.scale) (_hhi : t.scale ≤ MAX_ZOOM) :
    screenToCanvas rectLeft rectTop (zoomAt rectLeft rectTop clientX clientY delta t)
        clientX clientY
      = screenToCanvas rectLeft rectTop t clientX clientY := by
  have hs : t.scale ≠ 0 := scale_in_range_ne_zero hlo
  have hs' : max MIN_ZOOM (min MAX_ZOOM (t.scale + delta)) ≠ 0 :=
    scale_in_range_ne_zero (clamp_mem_zoom_range (t.scale + delta)).1
  simp only [screenToCanvas, zoomAt, Prod.mk.injEq]
  constructor <;> (field_simp; ring)

theorem zoomAt_preserves_anchor_point_witness :
    (MIN_ZOOM ≤ (TState.mk 1 0 0).scale ∧ (TState.mk 1 0 0).scale ≤ MAX_ZOOM) ∧
    screenToCanvas 2 3 (zoomAt 2 3 100 200 (1/10) (TState.mk 1 0 0)) 100 200
      = screenToCanvas 2 3 (TState.mk 1 0 0) 100 200 :=
  ⟨⟨by norm_num [MIN_ZOOM], by norm_num [MAX_ZOOM]⟩,
   zoomAt_preserves_anchor_point 2 3 100 200 (1/10) (TState.mk 1 0 0)
     (by norm_num [MIN_ZOOM]) (by norm_num [MAX_ZOOM])⟩

/-- C5, counterexample: `setTransform` stores its scale argument verbatim,
so one `setTransform(5, 0, 0)` from an in-range state leaves the scale at 5,
outside `[MIN_ZOOM, MAX_ZOOM]`. -/
theorem setTransform_breaks_zoom_clamp :
    (MIN_ZOOM ≤ (TState.mk 1 0 0).scale ∧ (TState.mk 1 0 0).scale ≤ MAX_ZOOM) ∧
    (setTransform 5 0 0 (TState.mk 1 0 0)).scale = 5 ∧
    ¬ (setTransform 5 0 0 (TState.mk 1 0 0)).scale ≤ MAX_ZOOM := by
  refine ⟨⟨?_, ?_⟩, rfl, ?_⟩ <;> norm_num [MIN_ZOOM, MAX_ZOOM, setTransform]

/-- C5, amended: starting from any state with scale in
`[MIN_ZOOM, MAX_ZOOM]`, any sequence of `zoomAt`, `pan`, `fitToView` and
`resetZoom` mutations leaves the scale in `[MIN_ZOOM, MAX_ZOOM]`;
`setTransform` is the one mutation site that does not clamp. -/
theorem zoom_scale_clamped_without_setTransform (ms : List TMutation) (t0 : TState)
    (hlo : MIN_ZOOM ≤ t0.scale) (hhi : t0.scale ≤ MAX_ZOOM) :
    MIN_ZOOM ≤ (ms.foldl applyMutation t0).scale ∧
      (ms.foldl applyMutation t0).scale ≤ MAX_ZOOM := by
  induction ms generalizing t0 with
  | nil => exact ⟨hlo, hhi⟩
  | cons m rest ih =>
    rw [List.foldl_cons]
    refine ih (applyMutation t0 m) ?_ ?_ |>.imp id id
    all_goals
      cases m with
      | zoom rectLeft rectTop clientX clientY delta =>
        first
          | exact (clamp_mem_zoom_range (t0.scale + delta)).1
          | exact (clamp_mem_zoom_range (t0.scale + delta)).2
      | panTo panStartX panStartY x y =>
        first | exact hlo | exact hhi
      | fit boxes containerWidth containerHeight =>
        cases boxes with
        | nil =>
          simp only [applyMutation, fitToView, resetZoom]
          norm_num [MIN_ZOOM, MAX_ZOOM]
        | cons b rest2 =>
          first
            | exact (clamp_mem_zoom_range _).1
            | exact (clamp_mem_zoom_range _).2
      | reset =>
        simp only [applyMutation, resetZoom]
        norm_num [MIN_ZOOM, MAX_ZOOM]

theorem zoom_scale_clamped_without_setTransform_witness :
    (MIN_ZOOM ≤ (TState.mk 1 0 0).scale ∧ (TState.mk 1 0 0).scale ≤ MAX_ZOOM) ∧
    (MIN_ZOOM ≤ (([TMutation.zoom 0 0 10 10 (-9/10), TMutation.panTo 1 2 3 4,
          TMutation.reset]).foldl applyMutation (TState.mk 1 0 0)).scale ∧
      (([TMutation.zoom 0 0 10 10 (-9/10), TMutation.panTo 1 2 3 4,
          TMutation.reset]).foldl applyMutation (TState.mk 1 0 0)).scale ≤ MAX_ZOOM) :=
  ⟨⟨by norm_num [MIN_ZOOM], by norm_num [MAX_ZOOM]⟩,
   zoom_scale_clamped_without_setTransform _ (TState.mk 1 0 0)
     (by norm_num [MIN_ZOOM]) (by norm_num [MAX_ZOOM])⟩

/-- C7, counterexample: for a single zero-size node box the padded bounding
box is 120×120, so no division by zero happens, but the scale becomes the
clamped fit ratio `MAX_ZOOM = 2`, not the claimed default of 1. -/
theorem fitToView_zero_bbox_scale_is_two :
    (fitToView [NodeBox.mk 0 0 0 0] 1400 900 (TState.mk 1 0 0)).scale = 2 ∧
    ((2 : ℚ) ≠ 1) := by
  constructor
  · norm_num [fitToView, MIN_ZOOM, MAX_ZOOM]
  · norm_num

/-- C7, amended: for a single zero-size box the padding makes both content
dimensions 120 (no division by zero), and the resulting scale is the fit
ratio `min (containerW/120) (containerH/120)` clamped to
`[MIN_ZOOM, MAX_ZOOM]` — not a fixed fallback of 1; with no nodes at all,
`fitToView` degenerates to `resetZoom` (scale 1, offsets 0). -/
theorem fitToView_zero_bbox_behavior (bx by' containerWidth containerHeight : ℚ)
    (t : TState) :
    (fitToView [NodeBox.mk bx by' 0 0] containerWidth containerHeight t).scale
      = max MIN_ZOOM (min MAX_ZOOM (min (containerWidth / 120) (containerHeight / 120))) ∧
    fitToView [] containerWidth containerHeight t = resetZoom := by
  constructor
  · show max MIN_ZOOM (min MAX_ZOOM
        (min (containerWidth / (bx + 0 + 60 - (bx - 60)))
             (containerHeight / (by' + 0 + 60 - (by' - 60)))))
      = max MIN_ZOOM (min MAX_ZOOM (min (containerWidth / 120) (containerHeight / 120)))
    have h1 : bx + 0 + 60 - (bx - 60) = 120 := by ring
    have h2 : by' + 0 + 60 - (by' - 60) = 120 := by ring
    rw [h1, h2]
  · rfl

/-! ### connections.js — edge anchor selection

`getAnchorPoint(nodeRect, targetRect, containerRect)`: DOM rects become
`DomRect`; the target may be a rect or a raw preview point (the source
tests `targetRect.left !== undefined`). -/

structure DomRect where
  left : ℚ
  top : ℚ
  width : ℚ
  height : ℚ
  deriving DecidableEq

inductive Side where
  | left
  | right
  | top
  | bottom
  deriving DecidableEq

def Side.isHorizontal : Side → Bool
  | .left => true
  | .right => true
  | .top => false
  | .bottom => false

structure Anchor where
  x : ℚ
  y : ℚ
  side : Side
  deriving DecidableEq

inductive Target where
  | rect (r : DomRect)
  | pt (x y : ℚ)

/-- Center of a rect in container coordinates, as computed inside
`getAnchorPoint`. -/
def rectCenter (containerRect r : DomRect) : ℚ × ℚ :=
  (r.left + r.width / 2 - containerRect.left,
   r.top + r.height / 2 - containerRect.top)

def targetCenter (containerRect : DomRect) : Target → ℚ × ℚ
  | .rect r => rectCenter containerRect r
  | .pt x y => (x, y)

/-- connections.js `getAnchorPoint`. -/
def getAnchorPoint (nodeRect : DomRect) (target : Target) (containerRect : DomRect) :
    Anchor :=
  let c := rectCenter containerRect nodeRect
  let w := nodeRect.width
  let h := nodeRect.height
  let tc := targetCenter containerRect target
  let dx := tc.1 - c.1
  let dy := tc.2 - c.2
  if |dx| > |dy| then
    { x := if dx > 0 then c.1 + w / 2 else c.1 - w / 2
      y := c.2
      side := if dx > 0 then .right else .left }
  else
    { x := c.1
      y := if dy > 0 then c.2 + h / 2 else c.2 - h / 2
      side := if dy > 0 then .bottom else .top }

/-- The center-delta `(dx, dy)` between target center and node center, as
used by the anchor classification. -/
def centerDelta (nodeRect targetRect containerRect : DomRect) : ℚ × ℚ :=
  ((rectCenter containerRect targetRect).1 - (rectCenter containerRect nodeRect).1,
   (rectCenter containerRect targetRect).2 - (rectCenter containerRect nodeRect).2)

/-- C6, counterexample: for two boxes whose center delta is `(10, 10)`
(the tie `|dx| = |dy|`), the anchor side is `bottom` — the tie resolves to
the vertical branch, not to horizontal as claimed. -/
theorem anchor_tie_resolves_vertical :
    (getAnchorPoint (DomRect.mk 0 0 10 10) (Target.rect (DomRect.mk 10 10 10 10))
        (DomRect.mk 0 0 0 0)).side = Side.bottom ∧
    Side.bottom ≠ Side.right ∧ Side.bottom ≠ Side.left := by
  refine ⟨?_, by decide, by decide⟩
  norm_num [getAnchorPoint, rectCenter, targetCenter]

/-- C6, amended: the anchor classification is horizontal exactly when
`|dx| > |dy|` strictly (ties go to the vertical branch); the facing side is
`right`/`bottom` for positive delta and `left`/`top` otherwise, and the
anchor point is the midpoint of the chosen side of the node box. -/
theorem anchor_side_classification (nodeRect targetRect containerRect : DomRect) :
    (((getAnchorPoint nodeRect (Target.rect targetRect) containerRect).side.isHorizontal
        = true)
      ↔ |(centerDelta nodeRect targetRect containerRect).1|
          > |(centerDelta nodeRect targetRect containerRect).2|) ∧
    (((getAnchorPoint nodeRect (Target.rect targetRect) containerRect).side = Side.right)
      ↔ (|(centerDelta nodeRect targetRect containerRect).1|
            > |(centerDelta nodeRect targetRect containerRect).2|
          ∧ 0 < (centerDelta nodeRect targetRect containerRect).1)) ∧
    (((getAnchorPoint nodeRect (Target.rect targetRect) containerRect).side = Side.left)
      ↔ (|(centerDelta nodeRect targetRect containerRect).1|
            > |(centerDelta nodeRect targetRect containerRect).2|
          ∧ ¬ 0 < (centerDelta nodeRect targetRect containerRect).1)) ∧
    (((getAnchorPoint nodeRect (Target.rect targetRect) containerRect).side = Side.bottom)
      ↔ (¬ |(centerDelta nodeRect targetRect containerRect).1|
            > |(centerDelta nodeRect targetRect containerRect).2|
          ∧ 0 < (centerDelta nodeRect targetRect containerRect).2)) ∧
    (((getAnchorPoint nodeRect (Target.rect targetRect) containerRect).side = Side.top)
      ↔ (¬ |(centerDelta nodeRect targetRect containerRect).1|
            > |(centerDelta nodeRect targetRect containerRect).2|
          ∧ ¬ 0 < (centerDelta nodeRect targetRect containerRect).2)) ∧
    ((getAnchorPoint nodeRect (Target.rect targetRect) containerRect).x
      = (rectCenter containerRect nodeRect).1
        + (if (getAnchorPoint nodeRect (Target.rect targetRect) containerRect).side
              = Side.right then nodeRect.width / 2
           else if (getAnchorPoint nodeRect (Target.rect targetRect) containerRect).side
              = Side.left then -(nodeRect.width / 2)
           else 0)) ∧
    ((getAnchorPoint nodeRect (Target.rect targetRect) containerRect).y
      = (rectCenter containerRect nodeRect).2
        + (if (getAnchorPoint nodeRect (Target.rect targetRect) containerRect).side
              = Side.bottom then nodeRect.height / 2
           else if (getAnchorPoint nodeRect (Target.rect targetRect) containerRect).side
              = Side.top then -(nodeRect.height / 2)
           else 0)) := by
  have e1 : targetCenter containerRect (Target.rect targetRect)
      = rectCenter containerRect targetRect := rfl
  simp only [getAnchorPoint, centerDelta, e1, gt_iff_lt, sub_eq_add_neg]
  by_cases h1 : |(rectCenter containerRect targetRect).2 + -(rectCenter containerRect nodeRect).2|
      < |(rectCenter containerRect targetRect).1 + -(rectCenter containerRect nodeRect).1|
  · by_cases h2 :
        0 < (rectCenter containerRect targetRect).1 + -(rectCenter containerRect nodeRect).1
    · simp [h1, h2, Side.isHorizontal]
      try ring_nf
    · simp [h1, h2, Side.isHorizontal]
      try ring_nf
  · by_cases h2 :
        0 < (rectCenter containerRect targetRect).2 + -(rectCenter containerRect nodeRect).2
    · simp [h1, h2, Side.isHorizontal]
      try ring_nf
    · simp [h1, h2, Side.isHorizontal]
      try ring_nf

/-! ### layout.js — auto layout

Nodes carry their identity, semantic type, HTML content and position; the
map holds the node list (insertion order) and the connection list.  The
recursive walks (`getSubtreeWidth`, `layoutNode`) are fuel-indexed:
`none` means the recursion did not finish within the given depth budget —
`autoLayoutMap fuel w m = none` for every `fuel` models a run that never
terminates.  The viewport rect read from the DOM is the `rectWidth`
parameter. -/

structure MapNode where
  id : String
  type : String
  content : String
  x : ℚ
  y : ℚ
  deriving DecidableEq

structure Connection where
  id : String
  fromId : String
  toId : String
  deriving DecidableEq

structure MapData where
  nodes : List MapNode
  connections : List Connection
  deriving DecidableEq

def LEVEL_HEIGHT : ℚ := 220

def MIN_NODE_SPACING : ℚ := 50

def BASE_NODE_WIDTH : ℚ := 180

def CHAR_WIDTH : ℚ := 7

/-- The derived layout graph: `childrenOf` / `parentOf` maps, embedded as
functions with the JS `Map` defaults (`[]`, absent). -/
structure LayoutGraph where
  childrenOf : String → List String
  parentOf : String → Option String

/-- Body of the `map.connections.forEach` loop building the graph: append
`to` to `childrenOf[from]`, and set `parentOf[to] = from` unconditionally
(the source has no "already has a parent" guard). -/
def graphStep (g : LayoutGraph) (conn : Connection) : LayoutGraph :=
  { childrenOf := fun i => if i = conn.fromId then g.childrenOf i ++ [conn.toId]
                           else g.childrenOf i
    parentOf := fun i => if i = conn.toId then some conn.fromId else g.parentOf i }

def buildGraph (conns : List Connection) : LayoutGraph :=
  conns.foldl graphStep { childrenOf := fun _ => [], parentOf := fun _ => none }

/-- Helper for the `/<[^>]*>/g` strip in `estimateNodeWidth`: given the
characters after a `<`, finds the first `>` and returns what follows it,
or `none` when there is no `>` (in which case the regex has no match
starting at that `<`). -/
def dropTag (cs : List Char) : Option (List Char) :=
  match cs.dropWhile (fun c => c ≠ '>') with
  | [] => none
  | _ :: rest => some rest

theorem dropTag_length {cs r : List Char} (h : dropTag cs = some r) :
    r.length < cs.length := by
  unfold dropTag at h
  cases hd : cs.dropWhile (fun c => c ≠ '>') with
  | nil => rw [hd] at h; exact absurd h (by simp)
  | cons a t =>
    rw [hd] at h
    have hle : (cs.dropWhile (fun c => c ≠ '>')).length ≤ cs.length :=
      (List.dropWhile_sublist _).length_le
    rw [hd] at hle
    cases h
    simp only [List.length_cons] at hle
    omega

/-- `content.replace(/<[^>]*>/g, '')` as a character scan: a `<` with a
later `>` removes everything through that `>`, a `<` with no later `>`
matches nothing and the rest is kept verbatim. -/
def stripTags : List Char → List Char
  | [] => []
  | c :: rest =>
    if c = '<' then
      match h : dropTag rest with
      | some rest2 => stripTags rest2
      | none => c :: rest
    else
      c :: stripTags rest
termination_by cs => cs.length
decreasing_by
  · have := dropTag_length h
    simp only [List.length_cons]
    omega
  · simp only [List.length_cons]
    omega

/-- layout.js `estimateNodeWidth(nodeId)`.  (`numLines` in the source is
computed but never used.) -/
def estimateNodeWidth (nodes : List MapNode) (nodeId : String) : ℚ :=
  match nodes.find? (fun n => n.id = nodeId) with
  | none => BASE_NODE_WIDTH
  | some node =>
    let text := stripTags node.content.toList
    let width : ℚ := ((min text.length 25 : ℕ) : ℚ) * CHAR_WIDTH + 40
    max BASE_NODE_WIDTH (min width 350)

/-- The `children.forEach(childId => { totalWidth += getSubtreeWidth(childId) })`
accumulation, abstracted over the recursive call. -/
def subtreeAcc (recurse : String → Option ℚ) : ℚ → List String → Option ℚ
  | acc, [] => some acc
  | acc, c :: rest =>
    match recurse c with
    | none => none
    | some w => subtreeAcc recurse (acc + w) rest

/-- The `children.map(childId => getSubtreeWidth(childId))` array,
abstracted over the recursive call. -/
def widthsOf (recurse : String → Option ℚ) : List String → Option (List ℚ)
  | [] => some []
  | c :: rest =>
    match recurse c with
    | none => none
    | some w =>
      match widthsOf recurse rest with
      | none => none
      | some ws => some (w :: ws)

/-- layout.js `getSubtreeWidth(nodeId)`, fuel-indexed.  The source
recursion has no visited set and no memo table, so its unfolding is
exactly this recursion; `none` for every fuel value means the source
recursion never returns. -/
def getSubtreeWidth (children : String → List String) (nodes : List MapNode) :
    Nat → String → Option ℚ
  | 0, _ => none
  | fuel + 1, nodeId =>
    let nodeWidth := estimateNodeWidth nodes nodeId
    let cs := children nodeId
    if cs.isEmpty then some (nodeWidth + MIN_NODE_SPACING)
    else
      match subtreeAcc (getSubtreeWidth children nodes fuel) 0 cs with
      | none => none
      | some totalWidth => some (max totalWidth (nodeWidth + MIN_NODE_SPACING))

/-- The mutable scratch state of one layout pass: the node array (mutated
in place in the source) and the `positioned` set (in insertion order). -/
structure LState where
  nodes : List MapNode
  positioned : List String
  deriving DecidableEq

/-- `node.x = ...; node.y = ...` on the first node found by id. -/
def setNodePos : List MapNode → String → ℚ → ℚ → List MapNode
  | [], _, _, _ => []
  | n :: rest, nodeId, nx, ny =>
    if n.id = nodeId then { n with x := nx, y := ny } :: rest
    else n :: setNodePos rest nodeId nx ny

/-- The `children.forEach((childId, i) => ...)` loop of `layoutNode`,
threading the running `childX`. -/
def childLoop (recurse : LState → String → ℚ → ℚ → ℚ → Option LState) :
    LState → ℚ → ℚ → List (String × ℚ) → Option LState
  | st, _, _, [] => some st
  | st, childX, childY, (childId, w) :: rest =>
    match recurse st childId childX childY w with
    | none => none
    | some st' => childLoop recurse st' (childX + w) childY rest

/-- layout.js `layoutNode(nodeId, x, y, availableWidth)`, fuel-indexed. -/
def layoutNode (children : String → List String) :
    Nat → LState → String → ℚ → ℚ → ℚ → Option LState
  | 0, _, _, _, _, _ => none
  | fuel + 1, st, nodeId, x, y, availableWidth =>
    match st.nodes.find? (fun n => n.id = nodeId) with
    | none => some st
    | some _ =>
      if nodeId ∈ st.positioned then some st
      else
        let positioned2 := st.positioned ++ [nodeId]
        let nodeWidth := estimateNodeWidth st.nodes nodeId
        let nodes2 := setNodePos st.nodes nodeId
          (x + availableWidth / 2 - nodeWidth / 2) y
        let cs := children nodeId
        if cs.isEmpty then some ⟨nodes2, positioned2⟩
        else
          match widthsOf (getSubtreeWidth children nodes2 fuel) cs with
          | none => none
          | some childWidths =>
            let totalChildWidth := childWidths.foldl (· + ·) 0
            let childX := x + availableWidth / 2 - totalChildWidth / 2
            childLoop (fun st2 childId cx cy w => layoutNode children fuel st2 childId cx cy w)
              ⟨nodes2, positioned2⟩ childX (y + LEVEL_HEIGHT) (cs.zip childWidths)

/-- The `roots.forEach(root => ...)` loop: per root, recompute the subtree
width on the current node array, lay the tree out at the running `rootX`,
then advance `rootX` by the tree width. -/
def rootLoop (children : String → List String) (fuel : Nat) :
    LState → ℚ → List String → Option (LState × ℚ)
  | st, rootX, [] => some (st, rootX)
  | st, rootX, rootId :: rest =>
    match getSubtreeWidth children st.nodes fuel rootId with
    | none => none
    | some treeWidth =>
      match layoutNode children fuel st rootId rootX 80 treeWidth with
      | none => none
      | some st' => rootLoop children fuel st' (rootX + treeWidth) rest

/-- The orphan-placement loop: every node not in `positioned` gets the
next slot of a wrapping grid starting at `(rootX + 200, 80)`. -/
def orphanLoop (positioned : List String) (rectWidth rootX : ℚ) :
    List MapNode → ℚ → ℚ → List MapNode
  | [], _, _ => []
  | n :: rest, orphanX, orphanY =>
    if n.id ∈ positioned then
      n :: orphanLoop positioned rectWidth rootX rest orphanX orphanY
    else
      let n' := { n with x := orphanX, y := orphanY }
      let nextX := orphanX + MIN_NODE_SPACING
      if nextX > rectWidth - 200 then
        n' :: orphanLoop positioned rectWidth rootX rest (rootX + 200) (orphanY + LEVEL_HEIGHT)
      else
        n' :: orphanLoop positioned rectWidth rootX rest nextX orphanY

/-- layout.js `autoLayoutMap()`, fuel-indexed; `rectWidth` is the width of
the `#viewport` bounding rect (1400 in the documented fallback). -/
def autoLayoutMap (fuel : Nat) (rectWidth : ℚ) (m : MapData) : Option MapData :=
  match m.nodes with
  | [] => some m
  | n0 :: _ =>
    let g := buildGraph m.connections
    let roots0 := m.nodes.filter fun n => (g.parentOf n.id).isNone
    let roots := if roots0.isEmpty
      then [(m.nodes.find? (fun n => n.type = "main")).getD n0]
      else roots0
    match subtreeAcc (getSubtreeWidth g.childrenOf m.nodes fuel) 0 (roots.map (fun r => r.id)) with
    | none => none
    | some totalRootWidth =>
      let rootX := rectWidth / 2 - totalRootWidth / 2
      match rootLoop g.childrenOf fuel ⟨m.nodes, []⟩ rootX (roots.map (fun r => r.id)) with
      | none => none
      | some (st, rootXFinal) =>
        some { nodes := orphanLoop st.positioned rectWidth rootXFinal st.nodes
                 (rootXFinal + 200) 80
               connections := m.connections }

/-! ### The cycle `A -> B -> C -> A` -/

def cycNodes : List MapNode :=
  [⟨"A", "main", "A", 0, 0⟩, ⟨"B", "node", "B", 0, 0⟩, ⟨"C", "node", "C", 0, 0⟩]

def cycConns : List Connection :=
  [⟨"e1", "A", "B"⟩, ⟨"e2", "B", "C"⟩, ⟨"e3", "C", "A"⟩]

def cycMap : MapData := ⟨cycNodes, cycConns⟩

theorem cyc_children_A : (buildGraph cycConns).childrenOf "A" = ["B"] := rfl

theorem cyc_children_B : (buildGraph cycConns).childrenOf "B" = ["C"] := rfl

theorem cyc_children_C : (buildGraph cycConns).childrenOf "C" = ["A"] := rfl

theorem cyc_parent_A : (buildGraph cycConns).parentOf "A" = some "C" := rfl

theorem cyc_parent_B : (buildGraph cycConns).parentOf "B" = some "A" := rfl

theorem cyc_parent_C : (buildGraph cycConns).parentOf "C" = some "B" := rfl

theorem cyc_subtree_none (nodes : List MapNode) (fuel : Nat) :
    getSubtreeWidth (buildGraph cycConns).childrenOf nodes fuel "A" = none ∧
    getSubtreeWidth (buildGraph cycConns).childrenOf nodes fuel "B" = none ∧
    getSubtreeWidth (buildGraph cycConns).childrenOf nodes fuel "C" = none := by
  induction fuel with
  | zero => exact ⟨rfl, rfl, rfl⟩
  | succ n ih =>
    obtain ⟨ihA, ihB, ihC⟩ := ih
    refine ⟨?_, ?_, ?_⟩
    · simp [getSubtreeWidth, cyc_children_A, subtreeAcc, ihB]
    · simp [getSubtreeWidth, cyc_children_B, subtreeAcc, ihC]
    · simp [getSubtreeWidth, cyc_children_C, subtreeAcc, ihA]

/-- C1: on the cyclic connection set `A -> B -> C -> A` the layout pass
never completes, for any recursion budget: `getSubtreeWidth` has no
visited set or memo table, so the subtree-width recursion entered from the
fallback root revisits the cycle forever (a stack overflow in JS) and no
node is ever assigned a position. -/
theorem autoLayout_cycle_diverges (fuel : Nat) : autoLayoutMap fuel 1400 cycMap = none := by
  obtain ⟨hA, hB, hC⟩ := cyc_subtree_none cycNodes fuel
  simp only [cycNodes] at hA
  simp [autoLayoutMap, cycMap, cycNodes, subtreeAcc, hA,
    cyc_parent_A, cyc_parent_B, cyc_parent_C]

/-! ### Multiple incoming connections -/

def dupConns : List Connection := [⟨"k1", "A", "X"⟩, ⟨"k2", "B", "X"⟩]

/-- C3, counterexample: with connections `[(A, X), (B, X)]` the derived
parent of `X` is `B`, the `from` of the *last* connection targeting `X`,
not `A` as the first-writer-wins claim states. -/
theorem parentOf_first_writer_false :
    (buildGraph dupConns).parentOf "X" = some "B" ∧ ("B" : String) ≠ "A" :=
  ⟨rfl, by decide⟩

/-- C3, amended: `parentOf[to]` is the `from` of the LAST connection
targeting `to` in connection iteration order — each later connection into
the same node overwrites the derived parent (the source `parentOf.set` has
no "already has a parent" guard). -/
theorem parentOf_last_writer_wins (conns : List Connection) (nodeId : String) :
    (buildGraph conns).parentOf nodeId
      = ((conns.filter fun c => c.toId = nodeId).getLast?).map (fun c => c.fromId) := by
  induction conns using List.reverseRecOn with
  | nil => simp [buildGraph]
  | append_singleton l c ih =>
    have hfold : buildGraph (l ++ [c]) = graphStep (buildGraph l) c := by
      simp [buildGraph, List.foldl_append]
    rw [hfold, List.filter_append]
    by_cases hc : c.toId = nodeId
    · simp [graphStep, hc, List.getLast?_concat]
    · simp [graphStep, hc, ih]
      intro h
      exact absurd h.symm hc

/-! ### What a layout pass may and may not touch -/

/-- The non-positional fields of a node: identity, semantic type, content. -/
def nodeSkel (n : MapNode) : String × String × String := (n.id, n.type, n.content)

/-- The node list with positions erased (order preserved). -/
def skel (nodes : List MapNode) : List (String × String × String) := nodes.map nodeSkel

theorem skel_setNodePos (nodes : List MapNode) (nodeId : String) (nx ny : ℚ) :
    skel (setNodePos nodes nodeId nx ny) = skel nodes := by
  induction nodes with
  | nil => rfl
  | cons n rest ih =>
    by_cases h : n.id = nodeId
    · simp [setNodePos, h, skel, nodeSkel]
    · simp only [setNodePos, if_neg h, skel, List.map_cons] at ih ⊢
      rw [ih]

theorem childLoop_skel (recurse : LState → String → ℚ → ℚ → ℚ → Option LState)
    (hrec : ∀ st nodeId cx cy w st', recurse st nodeId cx cy w = some st' →
      skel st'.nodes = skel st.nodes) :
    ∀ (l : List (String × ℚ)) (st : LState) (childX childY : ℚ) (st' : LState),
      childLoop recurse st childX childY l = some st' → skel st'.nodes = skel st.nodes := by
  intro l
  induction l with
  | nil =>
    intro st childX childY st' h
    simp only [childLoop] at h
    cases h; rfl
  | cons p rest ih =>
    intro st childX childY st' h
    obtain ⟨cid, w⟩ := p
    simp only [childLoop] at h
    split at h
    · exact absurd h (by simp)
    · rename_i st1 hr
      exact (ih st1 _ _ st' h).trans (hrec _ _ _ _ _ _ hr)

theorem layoutNode_skel (children : String → List String) :
    ∀ (fuel : Nat) (st : LState) (nodeId : String) (x y w : ℚ) (st' : LState),
      layoutNode children fuel st nodeId x y w = some st' →
      skel st'.nodes = skel st.nodes := by
  intro fuel
  induction fuel with
  | zero =>
    intro st nodeId x y w st' h
    exact absurd h (by simp [layoutNode])
  | succ n ih =>
    intro st nodeId x y w st' h
    simp only [layoutNode] at h
    split at h
    · cases h; rfl
    · split at h
      · cases h; rfl
      · split at h
        · cases h
          simp [skel_setNodePos]
        · split at h
          · exact absurd h (by simp)
          · rename_i childWidths hw
            have hcl := childLoop_skel _ (fun a b c d e f hh => ih a b c d e f hh)
              _ _ _ _ _ h
            simpa [skel_setNodePos] using hcl

theorem rootLoop_skel (children : String → List String) (fuel : Nat) :
    ∀ (roots : List String) (st : LState) (rootX : ℚ) (out : LState × ℚ),
      rootLoop children fuel st rootX roots = some out →
      skel out.1.nodes = skel st.nodes := by
  intro roots
  induction roots with
  | nil =>
    intro st rootX out h
    simp only [rootLoop] at h
    cases h; rfl
  | cons r rest ih =>
    intro st rootX out h
    simp only [rootLoop] at h
    split at h
    · exact absurd h (by simp)
    · rename_i tw htw
      split at h
      · exact absurd h (by simp)
      · rename_i st1 hst1
        exact (ih st1 _ out h).trans (layoutNode_skel children fuel st r rootX 80 tw st1 hst1)

theorem orphanLoop_skel (positioned : List String) (rectWidth rootX : ℚ) :
    ∀ (nodes : List MapNode) (ox oy : ℚ),
      skel (orphanLoop positioned rectWidth rootX nodes ox oy) = skel nodes := by
  intro nodes
  induction nodes with
  | nil => intro ox oy; rfl
  | cons n rest ih =>
    intro ox oy
    simp only [orphanLoop]
    by_cases h : n.id ∈ positioned
    · simp [h, skel, nodeSkel]
      exact ih _ _
    · by_cases h2 : ox + MIN_NODE_SPACING > rectWidth - 200
      · simp [h, h2, skel, nodeSkel]
        exact ih _ _
      · simp [h, h2, skel, nodeSkel]
        exact ih _ _

/-- C10: a layout pass rewrites only node positions: whenever
`autoLayoutMap` completes, the connection list is unchanged and the node
list keeps its length, order, and every node's id, type and content. -/
theorem autoLayout_mutates_only_positions (fuel : Nat) (rectWidth : ℚ) (m m' : MapData)
    (h : autoLayoutMap fuel rectWidth m = some m') :
    m'.connections = m.connections ∧ skel m'.nodes = skel m.nodes := by
  simp only [autoLayoutMap] at h
  split at h
  · cases h
    exact ⟨rfl, rfl⟩
  · rename_i n0 tail hnodes
    split at h
    · exact absurd h (by simp)
    · rename_i totalRootWidth hfw
      split at h
      · exact absurd h (by simp)
      · rename_i p hp
        cases h
        refine ⟨rfl, ?_⟩
        rw [orphanLoop_skel]
        exact rootLoop_skel _ fuel _ _ _ _ hp

/-! ### A layout pass never reads the input positions

Two runs whose inputs agree on everything except node `x`/`y` stay in
lock-step: same control flow, same writes.  `NRel pos` relates nodes that
agree on the skeleton, and agree completely once their id has been
positioned (and hence written with run-independent coordinates). -/

def NRel (pos : List String) (n1 n2 : MapNode) : Prop :=
  nodeSkel n1 = nodeSkel n2 ∧ (n1.id ∈ pos → n1 = n2)

def SRel (st1 st2 : LState) : Prop :=
  st1.positioned = st2.positioned ∧
  List.Forall₂ (NRel st1.positioned) st1.nodes st2.nodes ∧
  (st1.nodes.map MapNode.id).Nodup

def OptRel {α β : Type} (R : α → β → Prop) : Option α → Option β → Prop
  | none, none => True
  | some a, some b => R a b
  | _, _ => False

theorem NRel.id_eq {pos : List String} {n1 n2 : MapNode} (h : NRel pos n1 n2) :
    n1.id = n2.id := congrArg (fun p => p.1) h.1

theorem nodeSkel_write_eq {n1 n2 : MapNode} (h : nodeSkel n1 = nodeSkel n2) (nx ny : ℚ) :
    ({ n1 with x := nx, y := ny } : MapNode) = { n2 with x := nx, y := ny } := by
  cases n1
  cases n2
  simp only [nodeSkel, Prod.mk.injEq] at h
  obtain ⟨h1, h2, h3⟩ := h
  subst h1
  subst h2
  subst h3
  rfl

theorem skel_eq_of_forall₂ {pos : List String} :
    ∀ {l1 l2 : List MapNode}, List.Forall₂ (NRel pos) l1 l2 → skel l1 = skel l2 := by
  intro l1 l2 h
  induction h with
  | nil => rfl
  | cons ha _ ih => simp only [skel, List.map_cons] at ih ⊢; rw [ha.1, ih]

theorem map_id_eq_of_skel {l1 l2 : List MapNode} (h : skel l1 = skel l2) :
    l1.map MapNode.id = l2.map MapNode.id := by
  have e : ∀ l : List MapNode, l.map MapNode.id = (skel l).map (fun p => p.1) := by
    intro l
    simp only [skel, List.map_map]
    rfl
  rw [e, e, h]

theorem find?_rel {pos : List String} :
    ∀ {l1 l2 : List MapNode}, List.Forall₂ (NRel pos) l1 l2 → ∀ (nodeId : String),
      (l1.find? (fun n => n.id = nodeId) = none ∧ l2.find? (fun n => n.id = nodeId) = none) ∨
      (∃ n1 n2, l1.find? (fun n => n.id = nodeId) = some n1 ∧
        l2.find? (fun n => n.id = nodeId) = some n2 ∧ NRel pos n1 n2) := by
  intro l1 l2 h
  induction h with
  | nil => intro nodeId; left; exact ⟨by simp, by simp⟩
  | cons ha ht ih =>
    intro nodeId
    rename_i a1 a2 t1 t2
    by_cases hid : a1.id = nodeId
    · right
      refine ⟨a1, a2, ?_, ?_, ha⟩
      · simp [List.find?_cons, hid]
      · simp [List.find?_cons, ha.id_eq ▸ hid]
    · have hid2 : ¬ a2.id = nodeId := by rw [← ha.id_eq]; exact hid
      rcases ih nodeId with ⟨h1, h2⟩ | ⟨n1, n2, h1, h2, hrel⟩
      · left
        constructor <;> simp [List.find?_cons, hid, hid2, h1, h2]
      · right
        refine ⟨n1, n2, ?_, ?_, hrel⟩
        · simp [List.find?_cons, hid, h1]
        · simp [List.find?_cons, hid2, h2]

theorem est_rel {pos : List String} {l1 l2 : List MapNode}
    (h : List.Forall₂ (NRel pos) l1 l2) (nodeId : String) :
    estimateNodeWidth l1 nodeId = estimateNodeWidth l2 nodeId := by
  unfold estimateNodeWidth
  rcases find?_rel h nodeId with ⟨h1, h2⟩ | ⟨n1, n2, h1, h2, hrel⟩
  · rw [h1, h2]
  · rw [h1, h2]
    have hc : n1.content = n2.content := congrArg (fun p => p.2.2) hrel.1
    dsimp only
    rw [hc]

theorem subtreeAcc_congr {f g : String → Option ℚ} (hfg : ∀ s, f s = g s) :
    ∀ (l : List String) (acc : ℚ), subtreeAcc f acc l = subtreeAcc g acc l := by
  intro l
  induction l with
  | nil => intro acc; rfl
  | cons c rest ih =>
    intro acc
    simp only [subtreeAcc, hfg c]
    cases g c with
    | none => rfl
    | some w => exact ih (acc + w)

theorem widthsOf_congr {f g : String → Option ℚ} (hfg : ∀ s, f s = g s) :
    ∀ (l : List String), widthsOf f l = widthsOf g l := by
  intro l
  induction l with
  | nil => rfl
  | cons c rest ih => simp only [widthsOf, hfg c, ih]

theorem gsw_rel (children : String → List String) {pos : List String}
    {l1 l2 : List MapNode} (h : List.Forall₂ (NRel pos) l1 l2) :
    ∀ (fuel : Nat) (nodeId : String),
      getSubtreeWidth children l1 fuel nodeId = getSubtreeWidth children l2 fuel nodeId := by
  intro fuel
  induction fuel with
  | zero => intro nodeId; rfl
  | succ n ih =>
    intro nodeId
    simp only [getSubtreeWidth]
    rw [est_rel h nodeId, subtreeAcc_congr (fun s => ih s)]

theorem forall₂_extend {pos : List String} {nodeId : String} :
    ∀ {t1 t2 : List MapNode}, List.Forall₂ (NRel pos) t1 t2 →
      (∀ n1 ∈ t1, n1.id ≠ nodeId) →
      List.Forall₂ (NRel (pos ++ [nodeId])) t1 t2 := by
  intro t1 t2 h
  induction h with
  | nil => intro _; exact .nil
  | cons ha ht ih =>
    rename_i a1 a2 s1 s2
    intro hne
    refine .cons ⟨ha.1, ?_⟩ (ih fun n1 hn1 => hne n1 (List.mem_cons_of_mem _ hn1))
    intro hmem
    rcases List.mem_append.mp hmem with hm | hm
    · exact ha.2 hm
    · exact absurd (List.mem_singleton.mp hm) (hne a1 (List.mem_cons_self _ _))

theorem setNodePos_rel {pos : List String} {nodeId : String} {nx ny : ℚ} :
    ∀ {l1 l2 : List MapNode}, List.Forall₂ (NRel pos) l1 l2 →
      (l1.map MapNode.id).Nodup →
      List.Forall₂ (NRel (pos ++ [nodeId])) (setNodePos l1 nodeId nx ny)
        (setNodePos l2 nodeId nx ny) := by
  intro l1 l2 h
  induction h with
  | nil => intro _; exact .nil
  | cons ha ht ih =>
    rename_i a1 a2 s1 s2
    intro hnodup
    simp only [List.map_cons, List.nodup_cons] at hnodup
    have hid := ha.id_eq
    by_cases hda : a1.id = nodeId
    · rw [setNodePos, if_pos hda, setNodePos, if_pos (hid ▸ hda)]
      refine .cons ⟨ha.1, fun _ => nodeSkel_write_eq ha.1 nx ny⟩ ?_
      refine forall₂_extend ht fun n1 hn1 hcon => hnodup.1 ?_
      rw [hda, ← hcon]
      exact List.mem_map_of_mem _ hn1
    · have hda2 : ¬ a2.id = nodeId := by rw [← hid]; exact hda
      rw [setNodePos, if_neg hda, setNodePos, if_neg hda2]
      refine .cons ⟨ha.1, ?_⟩ (ih hnodup.2)
      intro hmem
      rcases List.mem_append.mp hmem with hm | hm
      · exact ha.2 hm
      · exact absurd (List.mem_singleton.mp hm) hda

theorem childLoop_rel {recurse1 recurse2 : LState → String → ℚ → ℚ → ℚ → Option LState}
    (hrec : ∀ st1 st2 nodeId cx cy w, SRel st1 st2 →
      OptRel SRel (recurse1 st1 nodeId cx cy w) (recurse2 st2 nodeId cx cy w)) :
    ∀ (l : List (String × ℚ)) (st1 st2 : LState) (cx cy : ℚ), SRel st1 st2 →
      OptRel SRel (childLoop recurse1 st1 cx cy l) (childLoop recurse2 st2 cx cy l) := by
  intro l
  induction l with
  | nil => intro st1 st2 cx cy hst; exact hst
  | cons p rest ih =>
    intro st1 st2 cx cy hst
    obtain ⟨cid, w⟩ := p
    have h := hrec st1 st2 cid cx cy w hst
    simp only [childLoop]
    cases h1 : recurse1 st1 cid cx cy w with
    | none =>
      cases h2 : recurse2 st2 cid cx cy w with
      | none => trivial
      | some b => rw [h1, h2] at h; exact h.elim
    | some a =>
      cases h2 : recurse2 st2 cid cx cy w with
      | none => rw [h1, h2] at h; exact h.elim
      | some b =>
        rw [h1, h2] at h
        exact ih a b (cx + w) cy h

theorem layoutNode_rel (children : String → List String) :
    ∀ (fuel : Nat) (st1 st2 : LState) (nodeId : String) (x y availableWidth : ℚ),
      SRel st1 st2 →
      OptRel SRel (layoutNode children fuel st1 nodeId x y availableWidth)
        (layoutNode children fuel st2 nodeId x y availableWidth) := by
  intro fuel
  induction fuel with
  | zero => intro st1 st2 nodeId x y availableWidth hst; trivial
  | succ n ih =>
    intro st1 st2 nodeId x y availableWidth hst
    obtain ⟨nodes1, pos1⟩ := st1
    obtain ⟨nodes2, pos2⟩ := st2
    obtain ⟨hpos, hrel, hnodup⟩ := hst
    simp only at hpos hrel hnodup
    subst hpos
    simp only [layoutNode]
    rcases find?_rel hrel nodeId with ⟨h1, h2⟩ | ⟨n1, n2, h1, h2, hn⟩
    · rw [h1, h2]
      exact ⟨rfl, hrel, hnodup⟩
    · rw [h1, h2]
      by_cases hmem : nodeId ∈ pos1
      · rw [if_pos hmem, if_pos hmem]
        exact ⟨rfl, hrel, hnodup⟩
      · rw [if_neg hmem, if_neg hmem]
        have hest := est_rel hrel nodeId
        rw [← hest]
        have hsetrel := @setNodePos_rel pos1 nodeId
          (x + availableWidth / 2 - estimateNodeWidth nodes1 nodeId / 2) y
          nodes1 nodes2 hrel hnodup
        have hnodup2 :
            ((setNodePos nodes1 nodeId
              (x + availableWidth / 2 - estimateNodeWidth nodes1 nodeId / 2) y).map
                MapNode.id).Nodup := by
          rw [map_id_eq_of_skel (skel_setNodePos _ _ _ _)]
          exact hnodup
        by_cases hcs : (children nodeId).isEmpty
        · simp only [if_pos hcs]
          exact ⟨rfl, hsetrel, hnodup2⟩
        · simp only [if_neg hcs]
          have hw := widthsOf_congr (fun s => gsw_rel children hsetrel n s) (children nodeId)
          rw [← hw]
          cases hcw : widthsOf (getSubtreeWidth children
              (setNodePos nodes1 nodeId
                (x + availableWidth / 2 - estimateNodeWidth nodes1 nodeId / 2) y) n)
              (children nodeId) with
          | none => trivial
          | some childWidths =>
            exact childLoop_rel (fun a b c d e f hab => ih a b c d e f hab) _ _ _ _ _
              ⟨rfl, hsetrel, hnodup2⟩

def PRel (p1 p2 : LState × ℚ) : Prop := SRel p1.1 p2.1 ∧ p1.2 = p2.2

theorem rootLoop_rel (children : String → List String) (fuel : Nat) :
    ∀ (roots : List String) (st1 st2 : LState) (rootX : ℚ), SRel st1 st2 →
      OptRel PRel (rootLoop children fuel st1 rootX roots)
        (rootLoop children fuel st2 rootX roots) := by
  intro roots
  induction roots with
  | nil => intro st1 st2 rootX hst; exact ⟨hst, rfl⟩
  | cons r rest ih =>
    intro st1 st2 rootX hst
    simp only [rootLoop]
    have hgw : getSubtreeWidth children st1.nodes fuel r
        = getSubtreeWidth children st2.nodes fuel r := gsw_rel children hst.2.1 fuel r
    rw [← hgw]
    cases hw : getSubtreeWidth children st1.nodes fuel r with
    | none => trivial
    | some treeWidth =>
      dsimp only
      have hl := layoutNode_rel children fuel st1 st2 r rootX 80 treeWidth hst
      cases hl1 : layoutNode children fuel st1 r rootX 80 treeWidth with
      | none =>
        cases hl2 : layoutNode children fuel st2 r rootX 80 treeWidth with
        | none => trivial
        | some b => rw [hl1, hl2] at hl; exact hl.elim
      | some a =>
        cases hl2 : layoutNode children fuel st2 r rootX 80 treeWidth with
        | none => rw [hl1, hl2] at hl; exact hl.elim
        | some b =>
          rw [hl1, hl2] at hl
          exact ih a b (rootX + treeWidth) hl

theorem orphanLoop_eq {pos : List String} (rectWidth rootX : ℚ) :
    ∀ {l1 l2 : List MapNode}, List.Forall₂ (NRel pos) l1 l2 → ∀ (ox oy : ℚ),
      orphanLoop pos rectWidth rootX l1 ox oy = orphanLoop pos rectWidth rootX l2 ox oy := by
  intro l1 l2 h
  induction h with
  | nil => intro ox oy; rfl
  | cons ha ht ih =>
    rename_i a1 a2 s1 s2
    intro ox oy
    simp only [orphanLoop]
    by_cases hm : a1.id ∈ pos
    · have hm2 : a2.id ∈ pos := ha.id_eq ▸ hm
      rw [if_pos hm, if_pos hm2, ha.2 hm, ih]
    · have hm2 : a2.id ∉ pos := ha.id_eq ▸ hm
      rw [if_neg hm, if_neg hm2]
      by_cases h2 : ox + MIN_NODE_SPACING > rectWidth - 200
      · simp only [if_pos h2]
        rw [nodeSkel_write_eq ha.1 ox oy, ih]
      · simp only [if_neg h2]
        rw [nodeSkel_write_eq ha.1 ox oy, ih]

/-- The same map with every node position zeroed out. -/
def zeroPos (m : MapData) : MapData :=
  { m with nodes := m.nodes.map fun n => { n with x := 0, y := 0 } }

theorem forall₂_zeroPos (l : List MapNode) :
    List.Forall₂ (NRel []) l (l.map fun n => { n with x := 0, y := 0 }) := by
  induction l with
  | nil => exact .nil
  | cons n rest ih =>
    exact .cons ⟨rfl, fun hm => absurd hm (List.not_mem_nil _)⟩ ih

/-- C8: the layout pass never reads the input coordinates: its entire
result is a function of node ids/types/contents and the connection list
alone, so (given the data model's unique ids) running it on the same map
with all positions zeroed gives the identical outcome — every node's
output position is freshly assigned by the tree walk or by the orphan
grid, and in this exact-rational embedding every assigned coordinate is a
finite rational (the pass performs no division that could produce
`NaN`/`Infinity`). -/
theorem autoLayout_ignores_input_positions (fuel : Nat) (rectWidth : ℚ) (m : MapData)
    (hnodup : (m.nodes.map MapNode.id).Nodup) :
    autoLayoutMap fuel rectWidth m = autoLayoutMap fuel rectWidth (zeroPos m) := by
  obtain ⟨nodes, conns⟩ := m
  cases nodes with
  | nil => rfl
  | cons n0 tail =>
    simp only [zeroPos, List.map_cons] at hnodup ⊢
    simp only [autoLayoutMap]
    have hidf : ∀ n : MapNode, ({ n with x := 0, y := 0 } : MapNode).id = n.id := fun _ => rfl
    have hfilter :
        (((n0 :: tail).map fun n => { n with x := 0, y := 0 }).filter
            (fun n => ((buildGraph conns).parentOf n.id).isNone))
          = ((n0 :: tail).filter
              (fun n => ((buildGraph conns).parentOf n.id).isNone)).map
                fun n => { n with x := 0, y := 0 } :=
      List.filter_map _ _
    have hfind :
        (((n0 :: tail).map fun n => { n with x := 0, y := 0 }).find?
            (fun n => n.type = "main"))
          = ((n0 :: tail).find? (fun n => n.type = "main")).map
              fun n => { n with x := 0, y := 0 } := by
      rw [List.find?_map]
      rfl
    rw [List.map_cons] at hfilter hfind
    rw [hfilter, hfind]
    have hie : ∀ l : List MapNode,
        ((l.map fun n => { n with x := 0, y := 0 }).isEmpty) = l.isEmpty := by
      intro l; cases l <;> rfl
    rw [hie]
    have hids :
        ((if ((n0 :: tail).filter
              (fun n => ((buildGraph conns).parentOf n.id).isNone)).isEmpty
          then [(((n0 :: tail).find? (fun n => n.type = "main")).map
                  (fun n => { n with x := 0, y := 0 })).getD
                  { n0 with x := 0, y := 0 }]
          else ((n0 :: tail).filter
              (fun n => ((buildGraph conns).parentOf n.id).isNone)).map
                fun n => { n with x := 0, y := 0 }).map (fun r => r.id))
        = ((if ((n0 :: tail).filter
              (fun n => ((buildGraph conns).parentOf n.id).isNone)).isEmpty
          then [((n0 :: tail).find? (fun n => n.type = "main")).getD n0]
          else (n0 :: tail).filter
              (fun n => ((buildGraph conns).parentOf n.id).isNone)).map (fun r => r.id)) := by
      by_cases hc : ((n0 :: tail).filter
          (fun n => ((buildGraph conns).parentOf n.id).isNone)).isEmpty
      · simp only [if_pos hc]
        cases (n0 :: tail).find? (fun n => n.type = "main") <;> rfl
      · simp only [if_neg hc, List.map_map]
        rfl
    rw [hids]
    have hrel0 : List.Forall₂ (NRel []) (n0 :: tail)
        ({ n0 with x := 0, y := 0 } :: tail.map fun n => { n with x := 0, y := 0 }) :=
      .cons ⟨rfl, fun hm => absurd hm (List.not_mem_nil _)⟩ (forall₂_zeroPos tail)
    have hacc := subtreeAcc_congr
      (fun s => (gsw_rel (buildGraph conns).childrenOf hrel0 fuel s).symm)
      ((if ((n0 :: tail).filter
            (fun n => ((buildGraph conns).parentOf n.id).isNone)).isEmpty
        then [((n0 :: tail).find? (fun n => n.type = "main")).getD n0]
        else (n0 :: tail).filter
            (fun n => ((buildGraph conns).parentOf n.id).isNone)).map (fun r => r.id)) 0
    rw [hacc]
    generalize ((if ((n0 :: tail).filter
          (fun n => ((buildGraph conns).parentOf n.id).isNone)).isEmpty
        then [((n0 :: tail).find? (fun n => n.type = "main")).getD n0]
        else (n0 :: tail).filter
            (fun n => ((buildGraph conns).parentOf n.id).isNone)).map (fun r => r.id)) = ids
    cases hsa : subtreeAcc
        (getSubtreeWidth (buildGraph conns).childrenOf (n0 :: tail) fuel) 0 ids with
    | none => rfl
    | some totalRootWidth =>
      dsimp only
      have hrl := rootLoop_rel (buildGraph conns).childrenOf fuel ids
        ⟨n0 :: tail, []⟩
        ⟨{ n0 with x := 0, y := 0 } :: tail.map fun n => { n with x := 0, y := 0 }, []⟩
        (rectWidth / 2 - totalRootWidth / 2) ⟨rfl, hrel0, hnodup⟩
      cases hr1 : rootLoop (buildGraph conns).childrenOf fuel ⟨n0 :: tail, []⟩
          (rectWidth / 2 - totalRootWidth / 2) ids with
      | none =>
        cases hr2 : rootLoop (buildGraph conns).childrenOf fuel
            ⟨{ n0 with x := 0, y := 0 } :: tail.map fun n => { n with x := 0, y := 0 }, []⟩
            (rectWidth / 2 - totalRootWidth / 2) ids with
        | none => rfl
        | some b => rw [hr1, hr2] at hrl; exact hrl.elim
      | some a =>
        obtain ⟨stA, rxA⟩ := a
        cases hr2 : rootLoop (buildGraph conns).childrenOf fuel
            ⟨{ n0 with x := 0, y := 0 } :: tail.map fun n => { n with x := 0, y := 0 }, []⟩
            (rectWidth / 2 - totalRootWidth / 2) ids with
        | none => rw [hr1, hr2] at hrl; exact hrl.elim
        | some b =>
          obtain ⟨stB, rxB⟩ := b
          rw [hr1, hr2] at hrl
          obtain ⟨⟨hp1, hp2, _⟩, hpx⟩ := hrl
          simp only at hp1 hp2 hpx
          subst hpx
          dsimp only
          have he : orphanLoop stA.positioned rectWidth rxA stA.nodes (rxA + 200) 80
              = orphanLoop stB.positioned rectWidth rxA stB.nodes (rxA + 200) 80 := by
            rw [← hp1]
            exact orphanLoop_eq rectWidth rxA hp2 _ _
          exact congrArg
            (fun nl => (some { nodes := nl, connections := conns } : Option MapData)) he

/-! ### Single root with three children -/

def demoNodes : List MapNode :=
  [⟨"main", "main", "", 0, 0⟩, ⟨"a", "node", "", 0, 0⟩,
   ⟨"b", "node", "", 0, 0⟩, ⟨"c", "node", "", 0, 0⟩]

def demoConns : List Connection :=
  [⟨"d1", "main", "a"⟩, ⟨"d2", "main", "b"⟩, ⟨"d3", "main", "c"⟩]

def demoMap : MapData := ⟨demoNodes, demoConns⟩

/-- The layout the pass computes for `demoMap` at viewport width 1400:
every node estimates to width 180, each leaf slot is 230 wide, the root
slot is 690 wide starting at x = 355. -/
def demoOut : MapData :=
  ⟨[⟨"main", "main", "", 610, 80⟩, ⟨"a", "node", "", 380, 300⟩,
    ⟨"b", "node", "", 610, 300⟩, ⟨"c", "node", "", 840, 300⟩], demoConns⟩

theorem empty_content_toList : "".toList = ([] : List Char) := rfl

theorem demo_run_eval : autoLayoutMap 5 1400 demoMap = some demoOut := by
  norm_num +decide [autoLayoutMap, demoMap, demoNodes, demoConns, demoOut, buildGraph,
    graphStep, subtreeAcc, getSubtreeWidth, estimateNodeWidth, stripTags,
    empty_content_toList, setNodePos, layoutNode, childLoop, widthsOf, rootLoop,
    orphanLoop, LEVEL_HEIGHT, MIN_NODE_SPACING, BASE_NODE_WIDTH, CHAR_WIDTH,
    min_def, max_def, List.foldl_cons, List.foldl_nil]

/-- Position lookup in a pass result. -/
def nodePos (m : Option MapData) (nodeId : String) : Option (ℚ × ℚ) :=
  m.bind fun mm => (mm.nodes.find? (fun n => n.id = nodeId)).map fun n => (n.x, n.y)

/-- C9: for nodes `[main, a, b, c]` with connections
`[(main,a), (main,b), (main,c)]`, after the layout pass the three children
share one level (`a.y = b.y = c.y`), the root sits above them
(`main.y < a.y`), and the children run left to right in connection order
(`a.x < b.x < c.x`). -/
theorem autoLayout_single_root_three_children :
    ∃ xm ym xa ya xb yb xc yc : ℚ,
      nodePos (autoLayoutMap 5 1400 demoMap) "main" = some (xm, ym) ∧
      nodePos (autoLayoutMap 5 1400 demoMap) "a" = some (xa, ya) ∧
      nodePos (autoLayoutMap 5 1400 demoMap) "b" = some (xb, yb) ∧
      nodePos (autoLayoutMap 5 1400 demoMap) "c" = some (xc, yc) ∧
      ya = yb ∧ yb = yc ∧ ym < ya ∧ xa < xb ∧ xb < xc := by
  refine ⟨610, 80, 380, 300, 610, 300, 840, 300, ?_, ?_, ?_, ?_, ?_, ?_, ?_, ?_, ?_⟩ <;>
    norm_num +decide [demo_run_eval, nodePos, demoOut, demoConns]

theorem autoLayout_mutates_only_positions_witness :
    autoLayoutMap 5 1400 demoMap = some demoOut ∧
    (demoOut.connections = demoMap.connections ∧ skel demoOut.nodes = skel demoMap.nodes) :=
  ⟨demo_run_eval, autoLayout_mutates_only_positions 5 1400 demoMap demoOut demo_run_eval⟩

theorem autoLayout_ignores_input_positions_witness :
    ((demoMap.nodes.map MapNode.id).Nodup) ∧
    autoLayoutMap 5 1400 demoMap = autoLayoutMap 5 1400 (zeroPos demoMap) :=
  ⟨by decide, autoLayout_ignores_input_positions 5 1400 demoMap (by decide)⟩

end Mapply
